import Mathlib

/-!
Verification of the pinniped upstream-IDP reconciliation code.

This file gives a shallow embedding, in Lean 4, of the parts of the
pinniped repository that the specification's claims are about:

* `internal/controller/conditionsutil/conditions_util.go`
  (the condition merge engine: `MergeIDPConditions`, `mergeIDPCondition`),
* `internal/controller/supervisorconfig/oidcupstreamwatcher/oidc_upstream_watcher.go`
  (the OIDC upstream watcher: `Sync`, `validateUpstream`, `computeScopes`,
  `validateHTTPSURL`, the disallowed-parameter denylist),
* `internal/controller/supervisorconfig/githubupstreamwatcher/github_upstream_watcher.go`
  (the GitHub upstream watcher: `Sync`, `validateUpstream`, `updateStatus`).

Machine times (`metav1.Time`) are modelled as natural numbers; the merge
engine takes the stamp "now" as an explicit argument (in the Go code
`v1.Now()` is called inside the per-condition loop; the model uses a single
stamp per pass, which the proofs show is the only way the stamp is used).
Generation counters (`int64`) are modelled as `Int`.  Status subresource
writes and log output are side effects outside the model; the functions
below return the values the Go code would write.
-/

/-- Status of a condition, mirroring `metav1.ConditionStatus`
(`"True"`, `"False"`, `"Unknown"`). -/
inductive ConditionStatus where
  | ctrue
  | cfalse
  | cunknown
deriving DecidableEq, Repr

/-- One status condition, mirroring the fields of `metav1.Condition` /
`idpv1alpha1.Condition` used by the code: Type, Status, Reason, Message,
ObservedGeneration, LastTransitionTime. -/
structure Condition where
  type : String
  status : ConditionStatus
  reason : String
  message : String
  observedGeneration : Int
  lastTransitionTime : Nat
deriving DecidableEq, Repr

/-- Stamping performed by `MergeIDPConditions` on each incoming condition
before the per-condition merge: `cond.LastTransitionTime = v1.Now()` and
`cond.ObservedGeneration = observedGeneration`. -/
def stampCond (c : Condition) (observedGeneration : Int) (now : Nat) : Condition :=
  { c with lastTransitionTime := now, observedGeneration := observedGeneration }

/-- Index of the condition the Go loop in `mergeIDPCondition` leaves in `old`:
the loop scans the whole slice and keeps the pointer to the LAST entry whose
Type matches (it uses `continue`, not `break`). -/
def lastIdxOfType (l : List Condition) (t : String) : Option Nat :=
  match l with
  | [] => none
  | c :: rest =>
    match lastIdxOfType rest t with
    | some i => some (i + 1)
    | none => if c.type = t then some 0 else none

/-- Embedding of `mergeIDPCondition` (conditions_util.go): merge a new
condition into a slice of existing conditions, returning the updated slice
and whether the condition meaningfully changed.  If no existing condition
has the same Type, append.  Otherwise carry the old LastTransitionTime
forward when Status is unchanged, and replace the existing entry only when
the result differs from it (`equality.Semantic.DeepEqual` is structural
equality on these flat fields). -/
def mergeIDPCondition (existing : List Condition) (nc : Condition) : List Condition × Bool :=
  match lastIdxOfType existing nc.type with
  | none => (existing ++ [nc], true)
  | some i =>
    let old := existing.getD i nc
    let nc2 := if old.status = nc.status then { nc with lastTransitionTime := old.lastTransitionTime } else nc
    if old = nc2 then (existing, false) else (existing.set i nc2, true)

/-- Loop body of `MergeIDPConditions`: stamp each incoming condition, merge
it, accumulate whether any per-condition merge reported a change (the Go
code logs "updated condition" exactly then) and whether any incoming
condition had Status False.  Returns (merged list, anyChanged, hadErrorCondition). -/
def mergeLoop (conditions : List Condition) (observedGeneration : Int) (now : Nat)
    (existing : List Condition) : List Condition × Bool × Bool :=
  match conditions with
  | [] => (existing, false, false)
  | c :: rest =>
    let cond := stampCond c observedGeneration now
    let m := mergeIDPCondition existing cond
    let r := mergeLoop rest observedGeneration now m.1
    (r.1, m.2 || r.2.1, decide (cond.status = ConditionStatus.cfalse) || r.2.2)

/-- Byte-wise lexicographic string comparison, as Go's `<` / `<=` on strings
(characters stand in for bytes; the condition types compared by the code are
ASCII, where the two orders agree). -/
def charListLE : List Char → List Char → Bool
  | [], _ => true
  | _ :: _, [] => false
  | a :: as, b :: bs => if a < b then true else if b < a then false else charListLE as bs

theorem charListLE_total : ∀ as bs, charListLE as bs = true ∨ charListLE bs as = true := by
  intro as
  induction as with
  | nil => intro bs; left; rfl
  | cons a as ih =>
    intro bs
    cases bs with
    | nil => right; rfl
    | cons b bs =>
      rcases lt_trichotomy a b with h | h | h
      · left; simp [charListLE, h]
      · subst h
        rcases ih bs with h2 | h2
        · left; simp [charListLE, h2, lt_irrefl]
        · right; simp [charListLE, h2, lt_irrefl]
      · right; simp [charListLE, h]

theorem charListLE_trans :
    ∀ as bs cs, charListLE as bs = true → charListLE bs cs = true → charListLE as cs = true := by
  intro as
  induction as with
  | nil => intro bs cs _ _; rfl
  | cons a as ih =>
    intro bs cs h1 h2
    cases bs with
    | nil => simp [charListLE] at h1
    | cons b bs =>
      cases cs with
      | nil => simp [charListLE] at h2
      | cons c cs =>
        rcases lt_trichotomy a b with hab | hab | hab
        · rcases lt_trichotomy b c with hbc | hbc | hbc
          · have hac : a < c := lt_trans hab hbc
            simp [charListLE, hac]
          · subst hbc; simp [charListLE, hab]
          · simp [charListLE, asymm hbc, hbc] at h2
        · subst hab
          rcases lt_trichotomy a c with hbc | hbc | hbc
          · simp [charListLE, hbc]
          · subst hbc
            simp only [charListLE, lt_irrefl, if_neg (lt_irrefl a), if_false] at h1 h2 ⊢
            exact ih bs cs h1 h2
          · simp [charListLE, asymm hbc, hbc] at h2
        · simp [charListLE, asymm hab, hab] at h1

/-- Ordering by condition Type, the comparison used by the final sort in
`MergeIDPConditions`. -/
def condLE (a b : Condition) : Prop := charListLE a.type.data b.type.data = true

instance : DecidableRel condLE := fun a b => inferInstanceAs (Decidable (_ = true))

instance : IsTotal Condition condLE :=
  ⟨fun a b => charListLE_total a.type.data b.type.data⟩

instance : IsTrans Condition condLE :=
  ⟨fun a b c h1 h2 => charListLE_trans a.type.data b.type.data c.type.data h1 h2⟩

/-- Go's string ordering as a relation on `String`, used to model
`sort.Strings` in `sets.String.List()`. -/
def strLE (s t : String) : Prop := charListLE s.data t.data = true

instance : DecidableRel strLE := fun s t => inferInstanceAs (Decidable (_ = true))

instance : IsTotal String strLE :=
  ⟨fun s t => charListLE_total s.data t.data⟩

instance : IsTrans String strLE :=
  ⟨fun s t u h1 h2 => charListLE_trans s.data t.data u.data h1 h2⟩

/-- Final stable sort of `MergeIDPConditions`:
`sort.SliceStable(*conditionsToUpdate, func(i, j) { Type_i < Type_j })`.
Insertion sort is a stable sorting algorithm, so it computes the same list
as Go's stable sort by the same key. -/
def sortConds (l : List Condition) : List Condition :=
  l.insertionSort condLE

/-- Result of `MergeIDPConditions`: the final contents of the
`conditionsToUpdate` slice, the returned boolean (`hadErrorCondition`), and
whether any per-condition merge reported a change. -/
structure MergeResult where
  conditions : List Condition
  hadErrorCondition : Bool
  anyChanged : Bool
deriving DecidableEq, Repr

/-- Embedding of `MergeIDPConditions` (conditions_util.go): stamp and merge
each incoming condition in order, then stable-sort the whole set by Type,
returning whether any incoming condition had Status False. -/
def MergeIDPConditions (conditions : List Condition) (observedGeneration : Int)
    (conditionsToUpdate : List Condition) (now : Nat) : MergeResult :=
  let r := mergeLoop conditions observedGeneration now conditionsToUpdate
  { conditions := sortConds r.1, hadErrorCondition := r.2.2, anyChanged := r.2.1 }

example :
    MergeIDPConditions [{ type := "A", status := .cfalse, reason := "r", message := "m",
                          observedGeneration := 0, lastTransitionTime := 0 }] 3 [] 7 =
      { conditions := [{ type := "A", status := .cfalse, reason := "r", message := "m",
                         observedGeneration := 3, lastTransitionTime := 7 }],
        hadErrorCondition := true, anyChanged := true } := by decide

/-- Phase of a provider status (`PhaseReady` / `PhaseError` / `PhasePending`,
and the GitHub variants `GitHubPhaseReady` / `GitHubPhaseError`). -/
inductive Phase where
  | pending
  | ready
  | error
deriving DecidableEq, Repr

/-- Return value of a controller `Sync` pass, as interpreted by the driving
scheduler: `noError` models a nil return, `syntheticRequeue` models the
distinguished `controllerlib.ErrSyntheticRequeue` value ("retry soon"), and
`listError` models the wrapped lister error return ("retry with backoff"),
which is non-nil and distinct from the synthetic-requeue signal. -/
inductive SyncReturn where
  | noError
  | syntheticRequeue
  | listError
deriving DecidableEq, Repr

/-- Observable outcome of one `Sync` pass: the argument of the single
`Set...IdentityProviders` call into the published provider cache
(`none` when the cache setter was never called), and the return value. -/
structure SyncOutcome (β : Type) where
  cacheWrite : Option (List β)
  ret : SyncReturn
deriving DecidableEq, Repr

namespace githubupstreamwatcher

/-- The fields of a listed `GitHubIdentityProvider` the controller reads. -/
structure GitHubUpstream where
  name : String
  generation : Int
  statusPhase : Phase
  statusConditions : List Condition
deriving DecidableEq, Repr

/-- Embedding of `upstreamgithub.ProviderConfig` as constructed by the GitHub
watcher: only the Name field is populated. -/
structure GitHubProviderConfig where
  name : String
deriving DecidableEq, Repr

/-- Embedding of the GitHub watcher's `updateStatus`
(github_upstream_watcher.go): merge the computed conditions into a deep copy
of the status, set Phase to Ready, or to Error when `MergeIDPConditions`
reported an error condition.  The model returns the resulting status
(phase, conditions); the conditional `UpdateStatus` API write is a side
effect outside the model. -/
def updateStatus (upstream : GitHubUpstream) (conditions : List Condition) (now : Nat) :
    Phase × List Condition :=
  let m := MergeIDPConditions conditions upstream.generation upstream.statusConditions now
  (if m.hadErrorCondition then Phase.error else Phase.ready, m.conditions)

/-- Embedding of the GitHub watcher's `validateUpstream`
(github_upstream_watcher.go): the conditions slice is empty (all validation
checks are commented out pending the CRD proposal), `updateStatus` is called
with it, and a non-nil `ProviderConfig` carrying only the Name is always
returned.  The model also returns the status that `updateStatus` computed. -/
def validateUpstream (upstream : GitHubUpstream) (now : Nat) :
    Option GitHubProviderConfig × (Phase × List Condition) :=
  let conditions : List Condition := []
  let st := updateStatus upstream conditions now
  (some { name := upstream.name }, st)

/-- Embedding of the GitHub watcher's `Sync` (github_upstream_watcher.go):
on a lister error, return the wrapped error without touching the cache;
otherwise validate every listed upstream, write the accumulated valid
configs into the cache via `SetGitHubIdentityProviders`, and return the
synthetic-requeue signal when any validation returned nil. -/
def Sync (listResult : Except String (List GitHubUpstream)) (now : Nat) :
    SyncOutcome GitHubProviderConfig :=
  match listResult with
  | .error _ => { cacheWrite := none, ret := SyncReturn.listError }
  | .ok actualUpstreams =>
    let validatedUpstreams := actualUpstreams.filterMap (fun u => (validateUpstream u now).1)
    { cacheWrite := some validatedUpstreams,
      ret := if actualUpstreams.any (fun u => ((validateUpstream u now).1).isNone) then
               SyncReturn.syntheticRequeue
             else SyncReturn.noError }

end githubupstreamwatcher

namespace oidcupstreamwatcher

/-- Condition type constant `typeClientCredentialsSecretValid`. -/
def typeClientCredentialsSecretValid : String := "ClientCredentialsSecretValid"

/-- Condition type constant `typeAdditionalAuthorizeParametersValid`. -/
def typeAdditionalAuthorizeParametersValid : String := "AdditionalAuthorizeParametersValid"

/-- Condition type constant `typeOIDCDiscoverySucceeded`. -/
def typeOIDCDiscoverySucceeded : String := "OIDCDiscoverySucceeded"

/-- Reason constant `reasonDisallowedParameterName`. -/
def reasonDisallowedParameterName : String := "DisallowedParameterName"

/-- Message constant `allParamNamesAllowedMsg`. -/
def allParamNamesAllowedMsg : String := "additionalAuthorizeParameters parameter names are allowed"

/-- Modelled from the spec: the shared reason constant
`upstreamwatchers.ReasonSuccess` (package upstreamwatchers is not among the
provided sources); the spec's shared sub-checks report "else Success". -/
def reasonSuccess : String := "Success"

/-- Embedding of the package-level denylist map
`disallowedAdditionalAuthorizeParameters` (oidc_upstream_watcher.go); a map
from name to `true` is a finite set of names. -/
def disallowedAdditionalAuthorizeParameters : List String :=
  ["response_type", "scope", "client_id", "state", "nonce",
   "code_challenge", "code_challenge_method", "redirect_uri", "hd"]

/-- Go map insert `m[k] = v`: replace the value when the key is present,
otherwise add the pair. -/
def mapSet (m : List (String × String)) (k v : String) : List (String × String) :=
  if m.any (fun q => decide (q.1 = k)) then
    m.map (fun q => if q.1 = k then (k, v) else q)
  else m ++ [(k, v)]

/-- Go map lookup. -/
def mapGet (m : List (String × String)) (k : String) : Option String :=
  (m.find? (fun q => decide (q.1 = k))).map Prod.snd

/-- The `rejectedAuthcodeAuthorizeParameters` list accumulated by the loop at
the top of `validateUpstream` (oidc_upstream_watcher.go): the names of the
configured parameters whose name is in the denylist, in configuration
order. -/
def rejectedAuthcodeAuthorizeParameters (params : List (String × String)) : List String :=
  (params.filter (fun p => decide (p.1 ∈ disallowedAdditionalAuthorizeParameters))).map Prod.fst

/-- The `additionalAuthcodeAuthorizeParameters` map built by the same loop:
every configured parameter whose name is not in the denylist is inserted
into the map. -/
def additionalAuthcodeAuthorizeParameters (params : List (String × String)) :
    List (String × String) :=
  params.foldl
    (fun m p =>
      if p.1 ∈ disallowedAdditionalAuthorizeParameters then m else mapSet m p.1 p.2)
    []

/-- The AdditionalAuthorizeParametersValid condition appended by
`validateUpstream`: Status False with Reason DisallowedParameterName and a
comma-joined list of the rejected names when at least one parameter was
rejected, Status True otherwise.  LastTransitionTime and ObservedGeneration
are zero values here; `MergeIDPConditions` stamps them later. -/
def additionalAuthorizeParametersValidCondition (params : List (String × String)) : Condition :=
  let rejected := rejectedAuthcodeAuthorizeParameters params
  if rejected ≠ [] then
    { type := typeAdditionalAuthorizeParametersValid, status := ConditionStatus.cfalse,
      reason := reasonDisallowedParameterName,
      message := "the following additionalAuthorizeParameters are not allowed: " ++
        String.intercalate "," rejected,
      observedGeneration := 0, lastTransitionTime := 0 }
  else
    { type := typeAdditionalAuthorizeParametersValid, status := ConditionStatus.ctrue,
      reason := reasonSuccess, message := allParamNamesAllowedMsg,
      observedGeneration := 0, lastTransitionTime := 0 }

/-- Embedding of `computeScopes` (oidc_upstream_watcher.go): with no
additional scopes configured, the fixed default list; otherwise the sorted
list of the de-duplicated union of "openid" and the configured scopes
(`sets.NewString(...).List()` returns the member set sorted). -/
def computeScopes (additionalScopes : List String) : List String :=
  if additionalScopes.isEmpty then ["openid", "offline_access", "email", "profile"]
  else ((("openid" :: additionalScopes).insertionSort strLE).dedup)

/-- Embedding of the OIDC provider config fields that `validateUpstream`
fills in before the sub-validations run. -/
structure OIDCProviderConfig where
  name : String
  scopes : List String
  additionalAuthcodeParams : List (String × String)
deriving DecidableEq, Repr

/-- Embedding of the OIDC watcher's `validateUpstream`
(oidc_upstream_watcher.go).  The conditions returned by `validateSecret` and
`validateIssuer` depend on the informer caches and on the network, so the
model takes them as inputs; the third condition (parameter validation) is
computed.  The function returns the `ProviderConfig` when no condition has
Status False and nil otherwise, together with the condition list it passed
to `updateStatus`. -/
def validateUpstream (secretCondition issuerCondition : Condition) (upstreamName : String)
    (additionalAuthorizeParameters : List (String × String)) (additionalScopes : List String) :
    Option OIDCProviderConfig × List Condition :=
  let result : OIDCProviderConfig :=
    { name := upstreamName,
      scopes := computeScopes additionalScopes,
      additionalAuthcodeParams := additionalAuthcodeAuthorizeParameters additionalAuthorizeParameters }
  let conditions := [secretCondition, issuerCondition,
    additionalAuthorizeParametersValidCondition additionalAuthorizeParameters]
  let valid := !(conditions.any (fun c => decide (c.status = ConditionStatus.cfalse)))
  (if valid then some result else none, conditions)

/-- Embedding of the OIDC watcher's `Sync` (oidc_upstream_watcher.go): on a
lister error, return the wrapped error without touching the cache; otherwise
validate every listed upstream, always rewrite the published cache via
`SetOIDCIdentityProviders` with the accumulated valid configs, and return
`ErrSyntheticRequeue` when any validation returned nil.  The per-upstream
validation is a parameter because its outcome depends on secrets and on the
network. -/
def Sync {α β : Type} (listResult : Except String (List α)) (validateOne : α → Option β) :
    SyncOutcome β :=
  match listResult with
  | .error _ => { cacheWrite := none, ret := SyncReturn.listError }
  | .ok actualUpstreams =>
    let validatedUpstreams := actualUpstreams.filterMap validateOne
    { cacheWrite := some validatedUpstreams,
      ret := if actualUpstreams.any (fun u => (validateOne u).isNone) then
               SyncReturn.syntheticRequeue
             else SyncReturn.noError }

end oidcupstreamwatcher

namespace oidcupstreamwatcher

/-- Split a character list at the first occurrence of `c`: the part before
it, and (when present) the part after it, mirroring Go's
`strings.Cut`. -/
def splitAtFirst (c : Char) : List Char → List Char × Option (List Char)
  | [] => ([], none)
  | x :: rest =>
    if x = c then ([], some rest)
    else
      let r := splitAtFirst c rest
      (x :: r.1, r.2)

/-- Index of the LAST occurrence of `c` (Go's `strings.LastIndex` for a
one-byte separator). -/
def lastIdxOfChar (c : Char) : List Char → Option Nat
  | [] => none
  | x :: rest =>
    match lastIdxOfChar c rest with
    | some i => some (i + 1)
    | none => if x = c then some 0 else none

/-- ASCII letter test from Go's `getscheme`. -/
def isSchemeLetter (c : Char) : Bool :=
  (decide ('a' ≤ c) && decide (c ≤ 'z')) || (decide ('A' ≤ c) && decide (c ≤ 'Z'))

/-- Digit / plus / minus / dot test from Go's `getscheme`. -/
def isSchemeDigitOrSign (c : Char) : Bool :=
  (decide ('0' ≤ c) && decide (c ≤ '9')) || c == '+' || c == '-' || c == '.'

/-- Loop of Go's `getscheme` over the raw URL: letters continue; a digit,
plus, minus or dot at position 0 means "no scheme"; a colon at position 0 is
the "missing protocol scheme" error (`none`); a colon later splits off the
scheme; any other character means "no scheme". -/
def getSchemeGo (orig : List Char) : List Char → Nat → Option (List Char × List Char)
  | [], _ => some ([], orig)
  | c :: rest, i =>
    if isSchemeLetter c then getSchemeGo orig rest (i + 1)
    else if isSchemeDigitOrSign c then
      if i = 0 then some ([], orig) else getSchemeGo orig rest (i + 1)
    else if c = ':' then
      if i = 0 then none else some (orig.take i, orig.drop (i + 1))
    else some ([], orig)

/-- Go's `getscheme`: either an error (`none`) or the (possibly empty)
scheme together with the remainder after the colon. -/
def getScheme (cs : List Char) : Option (List Char × List Char) :=
  getSchemeGo cs cs 0

/-- ASCII digit test. -/
def isDigitChar (c : Char) : Bool := decide ('0' ≤ c) && decide (c ≤ '9')

/-- ASCII letter-or-digit test (the alphanumeric fast path of Go's
`shouldEscape`). -/
def isAlphaNumChar (c : Char) : Bool :=
  isSchemeLetter c || isDigitChar c

/-- Hex digit test, Go's `ishex`. -/
def isHexDig (c : Char) : Bool :=
  isDigitChar c || (decide ('a' ≤ c) && decide (c ≤ 'f')) || (decide ('A' ≤ c) && decide (c ≤ 'F'))

/-- Go's `stringContainsCTLByte`: a byte below space, or DEL. -/
def containsCTL (cs : List Char) : Bool :=
  cs.any (fun c => decide (c < ' ') || c == '\x7f')

/-- Naive rendering of Go's `strconv.Quote` as used inside `net/url` error
strings (no claim asserts a parse-error message, and on the inputs the
claims evaluate the quoted token holds no character that `Quote` would
escape). -/
def goQuote (s : String) : String := "\"" ++ s ++ "\""

/-- Error text of Go's `url.EscapeError`. -/
def escapeErrMsg (cs : List Char) : String :=
  "invalid URL escape " ++ goQuote (String.mk cs)

/-- Scan of Go's `unescape` in the modes that only validate percent-escapes
(path, fragment, userinfo, query component): every `%` must be followed by
two hex digits; the first failure is reported with the offending (up to
three character) token. -/
def escapeScanErr : List Char → Option String
  | [] => none
  | '%' :: a :: b :: rest =>
    if isHexDig a && isHexDig b then escapeScanErr rest
    else some (escapeErrMsg ['%', a, b])
  | '%' :: rest => some (escapeErrMsg ('%' :: rest))
  | _ :: rest => escapeScanErr rest

/-- Raw characters Go's `shouldEscape` permits unescaped in a host
(alphanumerics, unreserved marks, sub-delims and the extra host set), plus
all non-ASCII characters (Go only rejects bytes below 0x80). -/
def isHostRawAllowed (c : Char) : Bool :=
  decide ('\x80' ≤ c) || isAlphaNumChar c ||
    ['-', '.', '_', '~', '!', '$', '&', '\'', '(', ')', '*', '+', ',', ';', '=',
     ':', '[', ']', '<', '>', '"'].contains c

/-- Scan of Go's `unescape(host, encodeHost)`: percent-escapes must be two
hex digits AND must encode a non-ASCII byte unless they are the literal
`%25`; raw ASCII characters outside the permitted host set are rejected with
the `InvalidHostError` text. -/
def hostScanErr : List Char → Option String
  | [] => none
  | '%' :: a :: b :: rest =>
    if isHexDig a && isHexDig b then
      if (decide ('0' ≤ a) && decide (a ≤ '7')) && !(a == '2' && b == '5') then
        some (escapeErrMsg ['%', a, b])
      else hostScanErr rest
    else some (escapeErrMsg ['%', a, b])
  | '%' :: rest => some (escapeErrMsg ('%' :: rest))
  | c :: rest =>
    if isHostRawAllowed c then hostScanErr rest
    else some ("invalid character " ++ goQuote (String.mk [c]) ++ " in host name")

/-- Go's `validOptionalPort`: empty, or a colon followed by zero or more
digits. -/
def validOptionalPort : List Char → Bool
  | [] => true
  | ':' :: rest => rest.all isDigitChar
  | _ => false

/-- Characters Go's `validUserinfo` permits (all other runes, including
every non-ASCII one, make the userinfo invalid). -/
def isUserinfoChar (c : Char) : Bool :=
  isAlphaNumChar c ||
    ['-', '.', '_', ':', '~', '!', '$', '&', '\'', '(', ')', '*', '+', ',', ';', '=',
     '%', '@'].contains c

/-- Go's `parseHost`: a bracketed host needs a closing bracket and a valid
optional port after it; an unbracketed host with a colon needs a valid port
after the LAST colon; then the whole host string is scanned as
`unescape(host, encodeHost)`.  The IPv6 zone identifier (`%25zone`)
refinement, which unescapes the zone in a slightly more permissive mode, is
approximated by the host scan (the claims never evaluate a zone). -/
def parseHostErr (host : List Char) : Option String :=
  match host with
  | '[' :: _ =>
    match lastIdxOfChar ']' host with
    | none => some "missing ']' in host"
    | some i =>
      let colonPort := host.drop (i + 1)
      if !validOptionalPort colonPort then
        some ("invalid port " ++ goQuote (String.mk colonPort) ++ " after host")
      else hostScanErr host
  | _ =>
    match lastIdxOfChar ':' host with
    | none => hostScanErr host
    | some i =>
      let colonPort := host.drop i
      if !validOptionalPort colonPort then
        some ("invalid port " ++ goQuote (String.mk colonPort) ++ " after host")
      else hostScanErr host

/-- Go's `parseAuthority`: split at the LAST `@`; the host part goes through
`parseHost`; a userinfo part must pass `validUserinfo` and unescape with
valid percent-escapes. -/
def parseAuthorityErr (authority : List Char) : Option String :=
  match lastIdxOfChar '@' authority with
  | none => parseHostErr authority
  | some i =>
    let userinfo := authority.take i
    let host := authority.drop (i + 1)
    match parseHostErr host with
    | some d => some d
    | none =>
      if !(userinfo.all isUserinfoChar) then some "net/url: invalid userinfo"
      else escapeScanErr userinfo

/-- The fields of Go's `url.URL` that `validateHTTPSURL` reads. -/
structure GoURL where
  scheme : String
  opaqueRest : String
  rawQuery : String
  fragment : String
deriving DecidableEq, Repr

instance : DecidableEq (Except String GoURL) := fun a b =>
  match a, b with
  | Except.ok x, Except.ok y =>
    if h : x = y then isTrue (by rw [h]) else isFalse (by simp [h])
  | Except.error x, Except.error y =>
    if h : x = y then isTrue (by rw [h]) else isFalse (by simp [h])
  | Except.ok _, Except.error _ => isFalse (by simp)
  | Except.error _, Except.ok _ => isFalse (by simp)

/-- Error wrapper of Go's outer `url.Parse`:
`&Error{"parse", u, err}` renders as `parse "<u>": <detail>`. -/
def goErrWrap (u : List Char) (detail : String) : String :=
  "parse " ++ goQuote (String.mk u) ++ ": " ++ detail

/-- Modelled from Go's `net/url`: the body of `parse(u, false)` on the
pre-fragment part of the URL.  In order: reject control bytes; extract the
scheme with `getscheme` (propagating its "missing protocol scheme" error)
and lowercase it; split the raw query off at the first `?` (the ForceQuery
special case for a single trailing `?` leaves the same empty RawQuery and is
collapsed into the split); a rest not starting with `/` is an opaque,
unvalidated remainder when a scheme is present, and otherwise must not carry
a colon in its first segment and must have valid percent-escapes; a rest
starting with `//` (unless schemeless `///`) has its authority validated by
`parseAuthority` and the remaining path checked for valid percent-escapes;
any other rest is a path checked for valid percent-escapes.  The parsed
remainder after the scheme is kept opaque in `opaqueRest`. -/
def goParseBody (u : List Char) : Except String GoURL :=
  if containsCTL u then
    Except.error (goErrWrap u "net/url: invalid control character in URL")
  else
    match getScheme u with
    | none => Except.error (goErrWrap u "missing protocol scheme")
    | some (sch, afterScheme) =>
      let scheme := String.mk (sch.map Char.toLower)
      let q := splitAtFirst '?' afterScheme
      let rest := q.1
      let rawQuery := match q.2 with | none => "" | some r => String.mk r
      let mkOK : Except String GoURL :=
        Except.ok { scheme := scheme, opaqueRest := String.mk rest,
                    rawQuery := rawQuery, fragment := "" }
      match rest with
      | [] =>
        match escapeScanErr rest with
        | some d => Except.error (goErrWrap u d)
        | none => mkOK
      | '/' :: '/' :: afterSS =>
        if decide (scheme = "") && (match afterSS with | '/' :: _ => true | _ => false) then
          match escapeScanErr rest with
          | some d => Except.error (goErrWrap u d)
          | none => mkOK
        else
          let sp := splitAtFirst '/' afterSS
          let authority := sp.1
          let pathRest := match sp.2 with | none => [] | some r => '/' :: r
          match parseAuthorityErr authority with
          | some d => Except.error (goErrWrap u d)
          | none =>
            match escapeScanErr pathRest with
            | some d => Except.error (goErrWrap u d)
            | none => mkOK
      | '/' :: _ =>
        match escapeScanErr rest with
        | some d => Except.error (goErrWrap u d)
        | none => mkOK
      | _ =>
        if scheme = "" then
          if ((splitAtFirst '/' rest).1).contains ':' then
            Except.error (goErrWrap u "first path segment in URL cannot contain colon")
          else
            match escapeScanErr rest with
            | some d => Except.error (goErrWrap u d)
            | none => mkOK
        else mkOK

/-- Modelled from Go's `net/url.Parse` (standard library, not part of this
repository): cut the fragment off at the first `#`, run `parse` on the rest
(`goParseBody`), then validate and attach the fragment as `setFragment`
does; its percent-unescaping can only fail, never change emptiness, which is
all `validateHTTPSURL` reads from the fragment. -/
def goURLParse (s : String) : Except String GoURL :=
  let fr := splitAtFirst '#' s.data
  let frag := match fr.2 with | none => [] | some f => f
  match goParseBody fr.1 with
  | Except.error e => Except.error e
  | Except.ok url =>
    match escapeScanErr frag with
    | some d => Except.error (goErrWrap s.data d)
    | none => Except.ok { url with fragment := String.mk frag }

/-- Split a character list on every occurrence of `c` (Go's
`strings.Cut` loop in `url.ParseQuery`). -/
def splitOnChar (c : Char) (cs : List Char) : List (List Char) :=
  match cs with
  | [] => [[]]
  | x :: rest =>
    let r := splitOnChar c rest
    if x = c then [] :: r
    else
      match r with
      | [] => [[x]]
      | seg :: segs => (x :: seg) :: segs

/-- Modelled from Go's `net/url`: whether `len(u.Query()) != 0`.
`ParseQuery` splits the raw query on `&` and SKIPS segments that are empty,
contain a `;`, or whose key or value fails `QueryUnescape` (an invalid
percent-escape); `Query()` discards the error, so the parsed query map is
non-empty exactly when some segment survives all three checks.  (A raw `=`
can never sit inside a valid escape, so checking the escapes of the whole
segment equals checking key and value separately.) -/
def queryHasPairs (rawQuery : String) : Bool :=
  (splitOnChar '&' rawQuery.data).any
    (fun seg => !seg.isEmpty && !(seg.contains ';') && (escapeScanErr seg).isNone)

/-- Embedding of `validateHTTPSURL` (oidc_upstream_watcher.go): parse the
URL, require the "https" scheme, and reject any URL whose parsed query is
non-empty or whose fragment is non-empty; on success return the parsed URL
and no condition, otherwise nil and an OIDCDiscoverySucceeded=False
condition carrying the given reason.  `TruncateMostLongErr` truncates only
error texts longer than a fixed budget and is the identity on these short
parse errors. -/
def validateHTTPSURL (maybeHTTPSURL endpointType reason : String) :
    Option GoURL × Option Condition :=
  match goURLParse maybeHTTPSURL with
  | Except.error e =>
    (none, some { type := typeOIDCDiscoverySucceeded, status := ConditionStatus.cfalse,
                  reason := reason,
                  message := "failed to parse " ++ endpointType ++ " URL: " ++ e,
                  observedGeneration := 0, lastTransitionTime := 0 })
  | Except.ok parsedURL =>
    if parsedURL.scheme ≠ "https" then
      (none, some { type := typeOIDCDiscoverySucceeded, status := ConditionStatus.cfalse,
                    reason := reason,
                    message := endpointType ++ " URL '" ++ maybeHTTPSURL ++
                      "' must have \"https\" scheme, not \"" ++ parsedURL.scheme ++ "\"",
                    observedGeneration := 0, lastTransitionTime := 0 })
    else if queryHasPairs parsedURL.rawQuery || decide (parsedURL.fragment ≠ "") then
      (none, some { type := typeOIDCDiscoverySucceeded, status := ConditionStatus.cfalse,
                    reason := reason,
                    message := endpointType ++ " URL '" ++ maybeHTTPSURL ++
                      "' cannot contain query or fragment component",
                    observedGeneration := 0, lastTransitionTime := 0 })
    else (some parsedURL, none)

end oidcupstreamwatcher

/-! Helper lemmas about the merge engine. -/

/-- Expresses the data-model invariant "Type is unique within a condition
set". -/
def typesUnique (l : List Condition) : Prop := l.Pairwise (fun a b => a.type ≠ b.type)

/-- Agreement of two conditions on every field except LastTransitionTime. -/
def agreesExceptLTT (e c : Condition) : Prop :=
  e.type = c.type ∧ e.status = c.status ∧ e.reason = c.reason ∧
    e.message = c.message ∧ e.observedGeneration = c.observedGeneration

theorem agrees_stamp (e c : Condition) (gen : Int) (t1 t2 : Nat) :
    agreesExceptLTT e (stampCond c gen t1) ↔ agreesExceptLTT e (stampCond c gen t2) := by
  simp [agreesExceptLTT, stampCond]

theorem lastIdxOfType_eq_none {l : List Condition} {t : String} :
    lastIdxOfType l t = none ↔ ∀ c ∈ l, c.type ≠ t := by
  induction l with
  | nil => simp [lastIdxOfType]
  | cons c rest ih =>
    simp only [lastIdxOfType]
    cases h : lastIdxOfType rest t with
    | some i =>
      simp only [reduceCtorEq, false_iff]
      intro hall
      have hnone : lastIdxOfType rest t = none :=
        ih.mpr (fun d hd => hall d (List.mem_cons_of_mem _ hd))
      rw [hnone] at h
      cases h
    | none =>
      by_cases hct : c.type = t
      · simp only [if_pos hct, reduceCtorEq, false_iff]
        intro hall
        exact hall c (List.mem_cons_self _ _) hct
      · simp only [if_neg hct, true_iff]
        intro d hd
        rcases List.mem_cons.mp hd with rfl | hd
        · exact hct
        · exact ih.mp h d hd

theorem lastIdxOfType_lt : ∀ {l : List Condition} {t : String} {i : Nat},
    lastIdxOfType l t = some i → i < l.length := by
  intro l
  induction l with
  | nil => intro t i h; simp [lastIdxOfType] at h
  | cons c rest ih =>
    intro t i h
    simp only [lastIdxOfType] at h
    cases h2 : lastIdxOfType rest t with
    | some j =>
      rw [h2] at h
      cases h
      have := ih h2
      simp only [List.length_cons]
      omega
    | none =>
      rw [h2] at h
      by_cases hct : c.type = t
      · rw [if_pos hct] at h
        cases h
        simp
      · rw [if_neg hct] at h
        cases h

theorem lastIdxOfType_getD_type : ∀ {l : List Condition} {t : String} {i : Nat} (d : Condition),
    lastIdxOfType l t = some i → (l.getD i d).type = t := by
  intro l
  induction l with
  | nil => intro t i d h; simp [lastIdxOfType] at h
  | cons c rest ih =>
    intro t i d h
    simp only [lastIdxOfType] at h
    cases h2 : lastIdxOfType rest t with
    | some j =>
      rw [h2] at h
      cases h
      simpa [List.getD] using ih d h2
    | none =>
      rw [h2] at h
      by_cases hct : c.type = t
      · rw [if_pos hct] at h
        cases h
        simpa [List.getD] using hct
      · rw [if_neg hct] at h
        cases h

theorem getD_of_lt {l : List Condition} {i : Nat} (d : Condition) (h : i < l.length) :
    l.getD i d = l.get ⟨i, h⟩ := by
  simp [List.getD_eq_getElem?_getD, List.getElem?_eq_getElem h]

theorem typesUnique_eq_of_mem {l : List Condition} (hu : typesUnique l) {a b : Condition}
    (ha : a ∈ l) (hb : b ∈ l) (hab : a.type = b.type) : a = b := by
  rw [typesUnique, List.pairwise_iff_getElem] at hu
  obtain ⟨i, hi, rfl⟩ := List.mem_iff_getElem.mp ha
  obtain ⟨j, hj, rfl⟩ := List.mem_iff_getElem.mp hb
  rcases lt_trichotomy i j with h | h | h
  · exact absurd hab (hu i j hi hj h)
  · subst h; rfl
  · exact absurd hab.symm (hu j i hj hi h)

theorem typesUnique_set {l : List Condition} {i : Nat} {a : Condition} (hi : i < l.length)
    (ha : a.type = (l.get ⟨i, hi⟩).type) (hu : typesUnique l) : typesUnique (l.set i a) := by
  rw [typesUnique, List.pairwise_iff_getElem] at hu ⊢
  intro p q hp hq hpq
  simp only [List.length_set] at hp hq
  rw [List.getElem_set, List.getElem_set]
  by_cases hip : i = p
  · subst hip
    rw [if_pos rfl, if_neg (Nat.ne_of_lt hpq)]
    have := hu i q hp hq hpq
    rw [List.get_eq_getElem] at ha
    rw [ha]
    exact this
  · rw [if_neg hip]
    by_cases hiq : i = q
    · subst hiq
      rw [if_pos rfl]
      have := hu p i hp hq hpq
      rw [List.get_eq_getElem] at ha
      rw [ha]
      exact this
    · rw [if_neg hiq]
      exact hu p q hp hq hpq

theorem mergeIDPCondition_none {l : List Condition} {nc : Condition}
    (h : lastIdxOfType l nc.type = none) : mergeIDPCondition l nc = (l ++ [nc], true) := by
  simp [mergeIDPCondition, h]

theorem mergeIDPCondition_some_eqStatus {l : List Condition} {nc : Condition} {i : Nat}
    (h : lastIdxOfType l nc.type = some i) (hst : (l.getD i nc).status = nc.status) :
    mergeIDPCondition l nc =
      (if l.getD i nc = { nc with lastTransitionTime := (l.getD i nc).lastTransitionTime }
       then (l, false)
       else (l.set i { nc with lastTransitionTime := (l.getD i nc).lastTransitionTime }, true)) := by
  unfold mergeIDPCondition
  rw [h]
  dsimp only
  rw [if_pos hst]

theorem mergeIDPCondition_some_neStatus {l : List Condition} {nc : Condition} {i : Nat}
    (h : lastIdxOfType l nc.type = some i) (hst : ¬ (l.getD i nc).status = nc.status) :
    mergeIDPCondition l nc = (l.set i nc, true) := by
  have hne : ¬ l.getD i nc = nc := fun he => hst (by rw [he])
  unfold mergeIDPCondition
  rw [h]
  dsimp only
  rw [if_neg hst, if_neg hne]

theorem agrees_carry (nc : Condition) (x : Nat) :
    agreesExceptLTT { nc with lastTransitionTime := x } nc := by
  simp [agreesExceptLTT]

theorem mergeIDPCondition_exists_agrees (l : List Condition) (nc : Condition) :
    ∃ e ∈ (mergeIDPCondition l nc).1, agreesExceptLTT e nc := by
  cases h : lastIdxOfType l nc.type with
  | none =>
    refine ⟨nc, ?_, ?_⟩
    · rw [mergeIDPCondition_none h]
      exact List.mem_append_right _ (List.mem_singleton_self _)
    · simp [agreesExceptLTT]
  | some i =>
    have hi : i < l.length := lastIdxOfType_lt h
    by_cases hst : (l.getD i nc).status = nc.status
    · rw [mergeIDPCondition_some_eqStatus h hst]
      by_cases heq : l.getD i nc = { nc with lastTransitionTime := (l.getD i nc).lastTransitionTime }
      · refine ⟨l.getD i nc, ?_, ?_⟩
        · rw [if_pos heq]
          rw [getD_of_lt nc hi]
          exact l.get_mem i hi
        · rw [heq]
          exact agrees_carry nc _
      · refine ⟨{ nc with lastTransitionTime := (l.getD i nc).lastTransitionTime }, ?_, ?_⟩
        · rw [if_neg heq]
          exact List.mem_set l i hi _
        · exact agrees_carry nc _
    · rw [mergeIDPCondition_some_neStatus h hst]
      refine ⟨nc, List.mem_set l i hi nc, ?_⟩
      simp [agreesExceptLTT]

theorem mergeIDPCondition_typesUnique {l : List Condition} (nc : Condition)
    (hu : typesUnique l) : typesUnique (mergeIDPCondition l nc).1 := by
  cases h : lastIdxOfType l nc.type with
  | none =>
    rw [mergeIDPCondition_none h]
    rw [typesUnique, List.pairwise_append]
    refine ⟨hu, List.pairwise_singleton _ _, ?_⟩
    intro a ha b hb
    rw [List.mem_singleton] at hb
    subst hb
    exact lastIdxOfType_eq_none.mp h a ha
  | some i =>
    have hi : i < l.length := lastIdxOfType_lt h
    have hty : (l.getD i nc).type = nc.type := lastIdxOfType_getD_type nc h
    by_cases hst : (l.getD i nc).status = nc.status
    · rw [mergeIDPCondition_some_eqStatus h hst]
      by_cases heq : l.getD i nc = { nc with lastTransitionTime := (l.getD i nc).lastTransitionTime }
      · rw [if_pos heq]; exact hu
      · rw [if_neg heq]
        refine typesUnique_set hi ?_ hu
        rw [← getD_of_lt nc hi]
        exact hty.symm
    · rw [mergeIDPCondition_some_neStatus h hst]
      refine typesUnique_set hi ?_ hu
      rw [← getD_of_lt nc hi]
      exact hty.symm

theorem mergeIDPCondition_noop {l : List Condition} {nc : Condition} {e : Condition}
    (hu : typesUnique l) (he : e ∈ l) (hag : agreesExceptLTT e nc) :
    mergeIDPCondition l nc = (l, false) := by
  obtain ⟨hty, hst, hre, hme, hog⟩ := hag
  cases h : lastIdxOfType l nc.type with
  | none => exact absurd hty (lastIdxOfType_eq_none.mp h e he)
  | some i =>
    have hi : i < l.length := lastIdxOfType_lt h
    have htyd : (l.getD i nc).type = nc.type := lastIdxOfType_getD_type nc h
    have hmem : l.getD i nc ∈ l := by
      rw [getD_of_lt nc hi]
      exact l.get_mem i hi
    have hold : l.getD i nc = e :=
      typesUnique_eq_of_mem hu hmem he (by rw [htyd, hty])
    have hst2 : (l.getD i nc).status = nc.status := by rw [hold, hst]
    rw [mergeIDPCondition_some_eqStatus h hst2]
    have heq : l.getD i nc = { nc with lastTransitionTime := (l.getD i nc).lastTransitionTime } := by
      rw [hold]
      cases e
      cases nc
      simp_all
    rw [if_pos heq]

theorem mergeIDPCondition_mem_of_ne {l : List Condition} {nc : Condition} {e : Condition}
    (he : e ∈ l) (hne : e.type ≠ nc.type) : e ∈ (mergeIDPCondition l nc).1 := by
  cases h : lastIdxOfType l nc.type with
  | none =>
    rw [mergeIDPCondition_none h]
    exact List.mem_append_left _ he
  | some i =>
    have hi : i < l.length := lastIdxOfType_lt h
    have htyd : (l.getD i nc).type = nc.type := lastIdxOfType_getD_type nc h
    have hset : ∀ b : Condition, b.type = nc.type → e ∈ l.set i b := by
      intro b hb
      obtain ⟨j, hj, rfl⟩ := List.mem_iff_getElem.mp he
      have hij : i ≠ j := by
        intro hcontra
        subst hcontra
        rw [getD_of_lt nc hi, List.get_eq_getElem] at htyd
        exact hne htyd
      have hj2 : j < (l.set i b).length := by simpa using hj
      have : (l.set i b)[j] ∈ l.set i b := List.getElem_mem hj2
      rwa [List.getElem_set_ne hij] at this
    by_cases hst : (l.getD i nc).status = nc.status
    · rw [mergeIDPCondition_some_eqStatus h hst]
      by_cases heq : l.getD i nc = { nc with lastTransitionTime := (l.getD i nc).lastTransitionTime }
      · rwa [if_pos heq]
      · rw [if_neg heq]
        exact hset _ rfl
    · rw [mergeIDPCondition_some_neStatus h hst]
      exact hset nc rfl

theorem mergeLoop_hadError (conds : List Condition) (gen : Int) (now : Nat) :
    ∀ l, (mergeLoop conds gen now l).2.2 =
      conds.any (fun c => decide (c.status = ConditionStatus.cfalse)) := by
  induction conds with
  | nil => intro l; rfl
  | cons c rest ih =>
    intro l
    simp only [mergeLoop, List.any_cons]
    rw [ih]
    rfl

theorem mergeLoop_typesUnique (conds : List Condition) (gen : Int) (now : Nat) :
    ∀ l, typesUnique l → typesUnique (mergeLoop conds gen now l).1 := by
  induction conds with
  | nil => intro l hu; exact hu
  | cons c rest ih =>
    intro l hu
    exact ih _ (mergeIDPCondition_typesUnique _ hu)

theorem mergeLoop_mem_of_ne (conds : List Condition) (gen : Int) (now : Nat) {e : Condition}
    (hne : ∀ c ∈ conds, c.type ≠ e.type) :
    ∀ l, e ∈ l → e ∈ (mergeLoop conds gen now l).1 := by
  induction conds with
  | nil => intro l he; exact he
  | cons c rest ih =>
    intro l he
    refine ih (fun d hd => hne d (List.mem_cons_of_mem _ hd)) _ ?_
    exact mergeIDPCondition_mem_of_ne he
      (fun h => hne c (List.mem_cons_self _ _) (by simpa [stampCond] using h.symm))

theorem mergeLoop_exists (conds : List Condition) (gen : Int) (now : Nat)
    (hu : typesUnique conds) :
    ∀ l, ∀ c ∈ conds, ∃ e ∈ (mergeLoop conds gen now l).1, agreesExceptLTT e (stampCond c gen now) := by
  induction conds with
  | nil => intro l c hc; cases hc
  | cons c0 rest ih =>
    rw [typesUnique, List.pairwise_cons] at hu
    intro l c hc
    rcases List.mem_cons.mp hc with rfl | hc
    · obtain ⟨e, he, hag⟩ := mergeIDPCondition_exists_agrees l (stampCond c gen now)
      refine ⟨e, ?_, hag⟩
      simp only [mergeLoop]
      refine mergeLoop_mem_of_ne rest gen now ?_ _ he
      intro d hd
      have : c.type ≠ d.type := hu.1 d hd
      have hety : e.type = c.type := by
        simpa [stampCond] using hag.1
      rw [hety]
      exact fun hcontra => this hcontra.symm
    · exact ih hu.2 _ c hc

theorem mergeLoop_noop (conds : List Condition) (gen : Int) (now : Nat) :
    ∀ l, typesUnique l →
      (∀ c ∈ conds, ∃ e ∈ l, agreesExceptLTT e (stampCond c gen now)) →
      (mergeLoop conds gen now l).1 = l ∧ (mergeLoop conds gen now l).2.1 = false := by
  induction conds with
  | nil => intro l _ _; exact ⟨rfl, rfl⟩
  | cons c rest ih =>
    intro l hu hex
    obtain ⟨e, he, hag⟩ := hex c (List.mem_cons_self _ _)
    have hm : mergeIDPCondition l (stampCond c gen now) = (l, false) :=
      mergeIDPCondition_noop hu he hag
    have hrest := ih l hu (fun d hd => hex d (List.mem_cons_of_mem _ hd))
    simp only [mergeLoop, hm]
    exact ⟨hrest.1, by rw [Bool.false_or]; exact hrest.2⟩

theorem sortConds_perm (l : List Condition) : List.Perm (sortConds l) l :=
  List.perm_insertionSort condLE l

theorem sortConds_sorted (l : List Condition) : (sortConds l).Pairwise condLE :=
  List.sorted_insertionSort condLE l

theorem sortConds_eq_of_sorted {l : List Condition} (h : l.Pairwise condLE) : sortConds l = l :=
  List.Sorted.insertionSort_eq h

theorem typesUnique_of_perm {l1 l2 : List Condition} (hp : List.Perm l1 l2) (hu : typesUnique l1) :
    typesUnique l2 :=
  (List.Perm.pairwise_iff (fun h => Ne.symm h) hp).mp hu

theorem MergeIDPConditions_conditions (conds : List Condition) (gen : Int)
    (existing : List Condition) (now : Nat) :
    (MergeIDPConditions conds gen existing now).conditions =
      sortConds (mergeLoop conds gen now existing).1 := rfl

theorem MergeIDPConditions_hadError (conds : List Condition) (gen : Int)
    (existing : List Condition) (now : Nat) :
    (MergeIDPConditions conds gen existing now).hadErrorCondition =
      conds.any (fun c => decide (c.status = ConditionStatus.cfalse)) :=
  mergeLoop_hadError conds gen now existing

theorem MergeIDPConditions_anyChanged (conds : List Condition) (gen : Int)
    (existing : List Condition) (now : Nat) :
    (MergeIDPConditions conds gen existing now).anyChanged =
      (mergeLoop conds gen now existing).2.1 := rfl

theorem typesUnique_set_mem_type {existing : List Condition} {i : Nat} {b : Condition}
    (hu : typesUnique existing) (hi : i < existing.length)
    (hity : (existing.get ⟨i, hi⟩).type = b.type)
    {c : Condition} (hc : c ∈ existing.set i b) (hcty : c.type = b.type) : c = b := by
  obtain ⟨j, hj, rfl⟩ := List.mem_iff_getElem.mp hc
  have hj2 : j < existing.length := by simpa using hj
  by_cases hij : i = j
  · subst hij
    exact List.getElem_set_self hj
  · rw [List.getElem_set_ne hij] at hcty ⊢
    exfalso
    rw [typesUnique, List.pairwise_iff_getElem] at hu
    rw [List.get_eq_getElem] at hity
    rcases Nat.lt_or_ge i j with h | h
    · exact hu i j hi hj2 h (by rw [hity, hcty])
    · have h2 : j < i := Nat.lt_of_le_of_ne h (fun he => hij he.symm)
      exact hu j i hj2 hi h2 (by rw [hity, hcty])

/-- Example conditions used by concrete counterexamples and witnesses. -/
def exampleFalseX : Condition :=
  { type := "X", status := ConditionStatus.cfalse, reason := "r", message := "m",
    observedGeneration := 0, lastTransitionTime := 0 }

/-- Example condition of the same Type as `exampleFalseX` with Status True. -/
def exampleTrueX : Condition :=
  { type := "X", status := ConditionStatus.ctrue, reason := "r", message := "m",
    observedGeneration := 0, lastTransitionTime := 0 }

/-- C1: the boolean returned by `MergeIDPConditions` is true exactly when
some INCOMING condition has Status False (not when some condition of the
resulting merged set does), and the GitHub watcher's `updateStatus`
accordingly sets Phase to Error exactly when some incoming condition has
Status False, and to Ready otherwise. -/
theorem mergeIDPConditions_hadError_iff_incoming_false (conds : List Condition) (gen : Int)
    (existing : List Condition) (now : Nat) (u : githubupstreamwatcher.GitHubUpstream) :
    ((MergeIDPConditions conds gen existing now).hadErrorCondition = true ↔
      ∃ c ∈ conds, c.status = ConditionStatus.cfalse) ∧
    ((githubupstreamwatcher.updateStatus u conds now).1 = Phase.error ↔
      ∃ c ∈ conds, c.status = ConditionStatus.cfalse) ∧
    ((githubupstreamwatcher.updateStatus u conds now).1 = Phase.ready ↔
      ¬ ∃ c ∈ conds, c.status = ConditionStatus.cfalse) := by
  have key : ∀ (g : Int) (e : List Condition) (n : Nat),
      (MergeIDPConditions conds g e n).hadErrorCondition = true ↔
        ∃ c ∈ conds, c.status = ConditionStatus.cfalse := by
    intro g e n
    rw [MergeIDPConditions_hadError]
    simp [List.any_eq_true]
  refine ⟨key gen existing now, ?_, ?_⟩
  · rw [← key u.generation u.statusConditions now]
    unfold githubupstreamwatcher.updateStatus
    by_cases h : (MergeIDPConditions conds u.generation u.statusConditions now).hadErrorCondition = true
    · simp [h]
    · simp [h]
  · rw [← key u.generation u.statusConditions now]
    unfold githubupstreamwatcher.updateStatus
    by_cases h : (MergeIDPConditions conds u.generation u.statusConditions now).hadErrorCondition = true
    · simp [h]
    · simp [h]

/-- C1 counterexample: merging an empty incoming list over an existing set
that contains a Status=False condition returns false even though the
resulting merged set contains a Status=False condition, and the GitHub
watcher's `updateStatus` sets Phase to Ready on that merged set. -/
theorem mergeIDPConditions_hadError_counterexample :
    (MergeIDPConditions [] 1 [exampleFalseX] 5).hadErrorCondition = false ∧
    (∃ c ∈ (MergeIDPConditions [] 1 [exampleFalseX] 5).conditions,
      c.status = ConditionStatus.cfalse) ∧
    (githubupstreamwatcher.updateStatus
        { name := "gh", generation := 1, statusPhase := Phase.error,
          statusConditions := [exampleFalseX] } [] 5).1 = Phase.ready := by decide

/-- C6: after any `MergeIDPConditions` call, the full merged condition set
is sorted in ascending order by Type (the model's `sortConds` is the stable
sort the Go code performs, so the persisted ordering is deterministic and
independent of input order). -/
theorem mergeIDPConditions_sorted_by_type (conds : List Condition) (gen : Int)
    (existing : List Condition) (now : Nat) :
    (MergeIDPConditions conds gen existing now).conditions.Pairwise condLE := by
  rw [MergeIDPConditions_conditions]
  exact sortConds_sorted _

/-- C4 (amended): merging is idempotent provided the incoming conditions
have pairwise-distinct Types and the existing set satisfies the
Type-uniqueness invariant: a second `MergeIDPConditions` call with the same
incoming conditions over the first call's output leaves the condition list
unchanged, no per-condition merge reports a change, and the returned boolean
is the same, even though the second call stamps a later
LastTransitionTime. -/
theorem mergeIDPConditions_idempotent_on_distinct_types (conds : List Condition) (gen : Int)
    (existing : List Condition) (t1 t2 : Nat)
    (hconds : typesUnique conds) (hex : typesUnique existing) :
    (MergeIDPConditions conds gen (MergeIDPConditions conds gen existing t1).conditions t2).conditions
      = (MergeIDPConditions conds gen existing t1).conditions ∧
    (MergeIDPConditions conds gen (MergeIDPConditions conds gen existing t1).conditions t2).anyChanged
      = false ∧
    (MergeIDPConditions conds gen (MergeIDPConditions conds gen existing t1).conditions t2).hadErrorCondition
      = (MergeIDPConditions conds gen existing t1).hadErrorCondition := by
  have hS1u : typesUnique (mergeLoop conds gen t1 existing).1 :=
    mergeLoop_typesUnique conds gen t1 existing hex
  have hr1u : typesUnique (MergeIDPConditions conds gen existing t1).conditions := by
    rw [MergeIDPConditions_conditions]
    exact typesUnique_of_perm (sortConds_perm _).symm hS1u
  have hexists : ∀ c ∈ conds, ∃ e ∈ (MergeIDPConditions conds gen existing t1).conditions,
      agreesExceptLTT e (stampCond c gen t2) := by
    intro c hc
    obtain ⟨e, he, hag⟩ := mergeLoop_exists conds gen t1 hconds existing c hc
    refine ⟨e, ?_, (agrees_stamp e c gen t1 t2).mp hag⟩
    rw [MergeIDPConditions_conditions]
    exact (sortConds_perm _).mem_iff.mpr he
  have hnoop := mergeLoop_noop conds gen t2 _ hr1u hexists
  refine ⟨?_, ?_, ?_⟩
  · rw [MergeIDPConditions_conditions, hnoop.1]
    refine sortConds_eq_of_sorted ?_
    rw [MergeIDPConditions_conditions]
    exact sortConds_sorted _
  · rw [MergeIDPConditions_anyChanged]
    exact hnoop.2
  · rw [MergeIDPConditions_hadError, MergeIDPConditions_hadError]

/-- C4 witness: the idempotence theorem applied to a concrete merge with
distinct incoming Types over an existing set holding an unrelated
condition. -/
theorem mergeIDPConditions_idempotent_witness :
    (MergeIDPConditions [exampleTrueX] 7
        (MergeIDPConditions [exampleTrueX] 7
          [{ type := "Y", status := ConditionStatus.cfalse, reason := "r", message := "m",
             observedGeneration := 0, lastTransitionTime := 3 }] 1).conditions 2).conditions
      = (MergeIDPConditions [exampleTrueX] 7
          [{ type := "Y", status := ConditionStatus.cfalse, reason := "r", message := "m",
             observedGeneration := 0, lastTransitionTime := 3 }] 1).conditions :=
  (mergeIDPConditions_idempotent_on_distinct_types [exampleTrueX] 7
    [{ type := "Y", status := ConditionStatus.cfalse, reason := "r", message := "m",
       observedGeneration := 0, lastTransitionTime := 3 }] 1 2
    (by simp [typesUnique]) (by simp [typesUnique])).1

/-- C4 counterexample: with two incoming conditions of the same Type and
different Status, a second merge with the same input changes the condition
list again (the LastTransitionTime keeps advancing) and per-condition merges
report changes. -/
theorem mergeIDPConditions_idempotent_counterexample :
    (MergeIDPConditions [exampleFalseX, exampleTrueX] 0
        (MergeIDPConditions [exampleFalseX, exampleTrueX] 0 [] 1).conditions 2).conditions
      ≠ (MergeIDPConditions [exampleFalseX, exampleTrueX] 0 [] 1).conditions ∧
    (MergeIDPConditions [exampleFalseX, exampleTrueX] 0
        (MergeIDPConditions [exampleFalseX, exampleTrueX] 0 [] 1).conditions 2).anyChanged
      = true := by decide

/-- C5: merging one incoming condition (whose LastTransitionTime field holds
the timestamp stamped at merge time) into an existing condition set
satisfying the Type-uniqueness invariant: when no condition of that Type
exists, the incoming condition is appended and counts as a change; when one
exists with equal Status, every condition of that Type in the merged set
keeps the existing condition's LastTransitionTime; when one exists with a
different Status, every condition of that Type in the merged set carries the
incoming condition's (newly stamped) LastTransitionTime. -/
theorem mergeIDPCondition_lastTransitionTime_spec (existing : List Condition) (nc : Condition)
    (hu : typesUnique existing) :
    ((∀ c ∈ existing, c.type ≠ nc.type) → mergeIDPCondition existing nc = (existing ++ [nc], true)) ∧
    (∀ old ∈ existing, old.type = nc.type →
      (∃ c ∈ (mergeIDPCondition existing nc).1, c.type = nc.type) ∧
      (old.status = nc.status →
        ∀ c ∈ (mergeIDPCondition existing nc).1, c.type = nc.type →
          c.lastTransitionTime = old.lastTransitionTime) ∧
      (old.status ≠ nc.status →
        ∀ c ∈ (mergeIDPCondition existing nc).1, c.type = nc.type →
          c.lastTransitionTime = nc.lastTransitionTime)) := by
  constructor
  · intro hnone
    exact mergeIDPCondition_none (lastIdxOfType_eq_none.mpr hnone)
  · intro old hold holdty
    cases hidx : lastIdxOfType existing nc.type with
    | none => exact absurd holdty (lastIdxOfType_eq_none.mp hidx old hold)
    | some i =>
      have hi : i < existing.length := lastIdxOfType_lt hidx
      have htyd : (existing.getD i nc).type = nc.type := lastIdxOfType_getD_type nc hidx
      have hmem : existing.getD i nc ∈ existing := by
        rw [getD_of_lt nc hi]
        exact existing.get_mem i hi
      have holdeq : existing.getD i nc = old :=
        typesUnique_eq_of_mem hu hmem hold (by rw [htyd, holdty])
      have hgetity : (existing.get ⟨i, hi⟩).type = nc.type := by
        rw [← getD_of_lt nc hi]
        exact htyd
      refine ⟨?_, ?_, ?_⟩
      · obtain ⟨e, he, hag⟩ := mergeIDPCondition_exists_agrees existing nc
        exact ⟨e, he, hag.1⟩
      · intro hst c hc hcty
        have hst2 : (existing.getD i nc).status = nc.status := by rw [holdeq, hst]
        rw [mergeIDPCondition_some_eqStatus hidx hst2] at hc
        by_cases heq :
            existing.getD i nc =
              { nc with lastTransitionTime := (existing.getD i nc).lastTransitionTime }
        · rw [if_pos heq] at hc
          have : c = old := typesUnique_eq_of_mem hu hc hold (by rw [hcty, holdty])
          rw [this]
        · rw [if_neg heq] at hc
          have hgetity2 : (existing.get ⟨i, hi⟩).type =
              ({ nc with
                  lastTransitionTime := (existing.getD i nc).lastTransitionTime } : Condition).type :=
            hgetity
          have hcty2 : c.type =
              ({ nc with
                  lastTransitionTime := (existing.getD i nc).lastTransitionTime } : Condition).type :=
            hcty
          have hc2 := typesUnique_set_mem_type hu hi hgetity2 hc hcty2
          rw [hc2, holdeq]
      · intro hst c hc hcty
        have hst2 : ¬ (existing.getD i nc).status = nc.status := by
          rw [holdeq]
          exact hst
        rw [mergeIDPCondition_some_neStatus hidx hst2] at hc
        have hc2 : c = nc := typesUnique_set_mem_type hu hi hgetity hc hcty
        rw [hc2]

/-- C5 witness: the transition-time theorem applied to a concrete merge
where the Status is unchanged, showing the stored LastTransitionTime (7)
is carried forward rather than the newly stamped one (9). -/
theorem mergeIDPCondition_lastTransitionTime_witness :
    ({ type := "X", status := ConditionStatus.ctrue, reason := "r2", message := "m2",
       observedGeneration := 1, lastTransitionTime := 7 } : Condition).lastTransitionTime = 7 :=
  ((mergeIDPCondition_lastTransitionTime_spec
      [{ type := "X", status := ConditionStatus.ctrue, reason := "r", message := "m",
         observedGeneration := 0, lastTransitionTime := 7 }]
      { type := "X", status := ConditionStatus.ctrue, reason := "r2", message := "m2",
        observedGeneration := 1, lastTransitionTime := 9 }
      (by simp [typesUnique])).2
    { type := "X", status := ConditionStatus.ctrue, reason := "r", message := "m",
      observedGeneration := 0, lastTransitionTime := 7 }
    (by decide) rfl).2.1 rfl
    { type := "X", status := ConditionStatus.ctrue, reason := "r2", message := "m2",
      observedGeneration := 1, lastTransitionTime := 7 }
    (by decide) rfl

/-- C2: in every OIDC `Sync` pass whose listing succeeds, the published
cache is rewritten with exactly the configs of the providers whose
validation returned non-nil (in list order), whatever the validation
outcomes; and in every pass whose listing fails, `Sync` returns the wrapped
lister error (non-nil, distinct from the synthetic-requeue signal) and the
cache setter is never called. -/
theorem oidcSync_cache_rewrite_and_list_error (α β : Type)
    (listResult : Except String (List α)) (validateOne : α → Option β) :
    (∀ ups, listResult = Except.ok ups →
      (oidcupstreamwatcher.Sync listResult validateOne).cacheWrite =
        some (ups.filterMap validateOne)) ∧
    (∀ e, listResult = Except.error e →
      (oidcupstreamwatcher.Sync listResult validateOne).ret = SyncReturn.listError ∧
      (oidcupstreamwatcher.Sync listResult validateOne).cacheWrite = none) := by
  constructor
  · intro ups h
    subst h
    rfl
  · intro e h
    subst h
    exact ⟨rfl, rfl⟩

/-- C2 witness: the cache-rewrite equation at a concrete successful listing
where one of two providers validates. -/
theorem oidcSync_cache_rewrite_witness :
    (oidcupstreamwatcher.Sync (Except.ok [1, 2])
        (fun n : Nat => if n = 1 then some n else none)).cacheWrite = some [1] :=
  (oidcSync_cache_rewrite_and_list_error Nat Nat (Except.ok [1, 2])
    (fun n => if n = 1 then some n else none)).1 [1, 2] rfl

theorem filterMap_some {γ δ : Type} (f : γ → δ) :
    ∀ l : List γ, l.filterMap (fun x => some (f x)) = l.map f := by
  intro l
  induction l with
  | nil => rfl
  | cons x rest ih => simp [ih]

theorem any_isNone_of_some {γ δ : Type} (g : γ → δ) :
    ∀ l : List γ, (l.any fun x => (Option.isNone (some (g x)))) = false := by
  intro l
  induction l with
  | nil => rfl
  | cons x rest ih => simp [ih]

theorem github_filterMap_validate (now : Nat)
    (ups : List githubupstreamwatcher.GitHubUpstream) :
    ups.filterMap (fun u => (githubupstreamwatcher.validateUpstream u now).1) =
      ups.map (fun u => ({ name := u.name } : githubupstreamwatcher.GitHubProviderConfig)) := by
  have h := filterMap_some
    (fun u : githubupstreamwatcher.GitHubUpstream =>
      ({ name := u.name } : githubupstreamwatcher.GitHubProviderConfig)) ups
  exact h

theorem github_no_validate_failure (now : Nat)
    (ups : List githubupstreamwatcher.GitHubUpstream) :
    (ups.any (fun u => ((githubupstreamwatcher.validateUpstream u now).1).isNone)) = false := by
  have h := any_isNone_of_some
    (fun u : githubupstreamwatcher.GitHubUpstream =>
      ({ name := u.name } : githubupstreamwatcher.GitHubProviderConfig)) ups
  exact h

/-- C10: the GitHub watcher's `validateUpstream` performs no checks (it
merges an empty condition list, so the merged status conditions are just the
sorted pre-existing ones), always computes Phase Ready, and always returns a
non-nil config; hence a `Sync` pass with a successful listing publishes
every listed provider and returns nil (never the synthetic-requeue
signal). -/
theorem githubSync_publishes_all_and_never_requeues
    (ups : List githubupstreamwatcher.GitHubUpstream) (now : Nat) :
    (∀ u ∈ ups,
      (githubupstreamwatcher.validateUpstream u now).1 = some { name := u.name } ∧
      (githubupstreamwatcher.validateUpstream u now).2.1 = Phase.ready ∧
      (githubupstreamwatcher.validateUpstream u now).2.2 = sortConds u.statusConditions) ∧
    githubupstreamwatcher.Sync (Except.ok ups) now =
      { cacheWrite :=
          some (ups.map (fun u => ({ name := u.name } : githubupstreamwatcher.GitHubProviderConfig))),
        ret := SyncReturn.noError } := by
  constructor
  · intro u _
    exact ⟨rfl, rfl, rfl⟩
  · unfold githubupstreamwatcher.Sync
    dsimp only
    rw [github_filterMap_validate now ups, github_no_validate_failure now ups]
    rfl

/-- Example GitHub provider whose persisted status already holds a
Status=False condition. -/
def exampleGitHubUpstream : githubupstreamwatcher.GitHubUpstream :=
  { name := "gh", generation := 4, statusPhase := Phase.error,
    statusConditions := [exampleFalseX] }

/-- C10 witness: a concrete GitHub provider whose persisted status holds a
Status=False condition is still validated to a non-nil config with Phase
Ready, and a singleton Sync pass publishes it without requeueing. -/
theorem githubSync_publishes_all_witness :
    (githubupstreamwatcher.validateUpstream exampleGitHubUpstream 9).1 = some { name := "gh" } ∧
    githubupstreamwatcher.Sync (Except.ok [exampleGitHubUpstream]) 9 =
      { cacheWrite := some [{ name := "gh" }], ret := SyncReturn.noError } :=
  ⟨((githubSync_publishes_all_and_never_requeues [exampleGitHubUpstream] 9).1 _
      (List.mem_singleton_self _)).1,
   (githubSync_publishes_all_and_never_requeues [exampleGitHubUpstream] 9).2⟩

/-- Example all-is-well condition (as produced by a sub-validation that
succeeded), used to isolate a configuration error in counterexamples. -/
def exampleSuccessCondition (t : String) : Condition :=
  { type := t, status := ConditionStatus.ctrue, reason := "Success", message := "ok",
    observedGeneration := 0, lastTransitionTime := 0 }

theorem oidc_validateUpstream_none_of_rejected (secretCondition issuerCondition : Condition)
    (upstreamName : String) (params : List (String × String)) (additionalScopes : List String)
    (hrej : oidcupstreamwatcher.rejectedAuthcodeAuthorizeParameters params ≠ []) :
    (oidcupstreamwatcher.validateUpstream secretCondition issuerCondition upstreamName params
        additionalScopes).1 = none := by
  have h3 : (oidcupstreamwatcher.additionalAuthorizeParametersValidCondition params).status =
      ConditionStatus.cfalse := by
    unfold oidcupstreamwatcher.additionalAuthorizeParametersValidCondition
    dsimp only
    rw [if_pos hrej]
  simp [oidcupstreamwatcher.validateUpstream, h3]

/-- C3 (amended): a provider whose only failing validation is a
configuration error (here, a denylisted additional authorize parameter)
still yields a nil config from `validateUpstream`, and any `Sync` pass whose
listing succeeds and contains such a provider returns the synthetic-requeue
signal; configuration errors are reported via conditions AND retried on the
short synthetic-requeue schedule, not only at the normal resync interval. -/
theorem oidc_configError_still_requeues (secretCondition issuerCondition : Condition)
    (upstreamName : String) (params : List (String × String)) (additionalScopes : List String)
    (hrej : oidcupstreamwatcher.rejectedAuthcodeAuthorizeParameters params ≠ [])
    {α : Type} (ups : List α)
    (validateOne : α → Option oidcupstreamwatcher.OIDCProviderConfig) (u : α) (hu : u ∈ ups)
    (hv : validateOne u = (oidcupstreamwatcher.validateUpstream secretCondition issuerCondition
        upstreamName params additionalScopes).1) :
    (oidcupstreamwatcher.validateUpstream secretCondition issuerCondition upstreamName params
        additionalScopes).1 = none ∧
    (oidcupstreamwatcher.Sync (Except.ok ups) validateOne).ret = SyncReturn.syntheticRequeue := by
  have hnone := oidc_validateUpstream_none_of_rejected secretCondition issuerCondition
    upstreamName params additionalScopes hrej
  refine ⟨hnone, ?_⟩
  have hany : (ups.any fun v => (validateOne v).isNone) = true :=
    List.any_eq_true.mpr ⟨u, hu, by rw [hv, hnone]; rfl⟩
  unfold oidcupstreamwatcher.Sync
  dsimp only
  rw [hany]
  rfl

/-- C3 counterexample: with both environment-dependent sub-validations
succeeding and a single configuration error (the denylisted parameter
redirect_uri), the pass DOES return the synthetic-requeue signal, contrary
to the claim that configuration errors alone never trigger it. -/
theorem oidc_configError_requeue_counterexample :
    (oidcupstreamwatcher.Sync (Except.ok [0])
        (fun _ : Nat =>
          (oidcupstreamwatcher.validateUpstream
            (exampleSuccessCondition oidcupstreamwatcher.typeClientCredentialsSecretValid)
            (exampleSuccessCondition oidcupstreamwatcher.typeOIDCDiscoverySucceeded)
            "upstream" [("redirect_uri", "evil")] []).1)) =
      { cacheWrite := some [], ret := SyncReturn.syntheticRequeue } := by decide

/-- C3 witness: the amended theorem applied at the concrete
redirect_uri=evil configuration. -/
theorem oidc_configError_still_requeues_witness :
    (oidcupstreamwatcher.validateUpstream
        (exampleSuccessCondition oidcupstreamwatcher.typeClientCredentialsSecretValid)
        (exampleSuccessCondition oidcupstreamwatcher.typeOIDCDiscoverySucceeded)
        "upstream" [("redirect_uri", "evil")] []).1 = none :=
  (oidc_configError_still_requeues
    (exampleSuccessCondition oidcupstreamwatcher.typeClientCredentialsSecretValid)
    (exampleSuccessCondition oidcupstreamwatcher.typeOIDCDiscoverySucceeded)
    "upstream" [("redirect_uri", "evil")] [] (by decide) [0]
    (fun _ : Nat =>
      (oidcupstreamwatcher.validateUpstream
        (exampleSuccessCondition oidcupstreamwatcher.typeClientCredentialsSecretValid)
        (exampleSuccessCondition oidcupstreamwatcher.typeOIDCDiscoverySucceeded)
        "upstream" [("redirect_uri", "evil")] []).1)
    0 (List.mem_singleton_self 0) rfl).1

namespace oidcupstreamwatcher

theorem mapSet_mem_keys {m : List (String × String)} {k v : String} {q : String × String}
    (hq : q ∈ mapSet m k v) : q.1 = k ∨ ∃ p ∈ m, q.1 = p.1 := by
  unfold mapSet at hq
  by_cases h : m.any (fun q2 => decide (q2.1 = k))
  · rw [if_pos h] at hq
    obtain ⟨p, hp, hpe⟩ := List.mem_map.mp hq
    by_cases hpk : p.1 = k
    · rw [if_pos hpk] at hpe
      left
      rw [← hpe]
    · rw [if_neg hpk] at hpe
      right
      exact ⟨p, hp, by rw [hpe]⟩
  · rw [if_neg h] at hq
    rcases List.mem_append.mp hq with h2 | h2
    · right
      exact ⟨q, h2, rfl⟩
    · left
      rw [List.mem_singleton] at h2
      rw [h2]

theorem additionalParams_fold_keys (params : List (String × String)) :
    ∀ m : List (String × String),
      (∀ q ∈ m, ¬ q.1 ∈ disallowedAdditionalAuthorizeParameters) →
      ∀ q ∈ List.foldl
        (fun m2 p =>
          if p.1 ∈ disallowedAdditionalAuthorizeParameters then m2 else mapSet m2 p.1 p.2)
        m params,
        ¬ q.1 ∈ disallowedAdditionalAuthorizeParameters := by
  induction params with
  | nil => intro m hm q hq; exact hm q hq
  | cons p rest ih =>
    intro m hm q hq
    simp only [List.foldl_cons] at hq
    by_cases hp : p.1 ∈ disallowedAdditionalAuthorizeParameters
    · rw [if_pos hp] at hq
      exact ih m hm q hq
    · rw [if_neg hp] at hq
      refine ih _ ?_ q hq
      intro q2 hq2
      rcases mapSet_mem_keys hq2 with h | ⟨p2, hp2, he⟩
      · rw [h]; exact hp
      · rw [he]; exact hm p2 hp2

theorem additionalParams_disallowed_get_none (params : List (String × String)) (n : String)
    (hn : n ∈ disallowedAdditionalAuthorizeParameters) :
    mapGet (additionalAuthcodeAuthorizeParameters params) n = none := by
  unfold mapGet additionalAuthcodeAuthorizeParameters
  have hkeys := additionalParams_fold_keys params [] (by intro q hq; cases hq)
  have hfind : List.find? (fun q => decide (q.1 = n))
      (List.foldl
        (fun m2 p =>
          if p.1 ∈ disallowedAdditionalAuthorizeParameters then m2 else mapSet m2 p.1 p.2)
        [] params) = none := by
    rw [List.find?_eq_none]
    intro x hx
    simp only [decide_eq_true_eq]
    intro he
    exact hkeys x hx (he ▸ hn)
  rw [hfind]
  rfl

end oidcupstreamwatcher

/-- C8: a configured additional authorize parameter is rejected exactly when
its name is in the fixed nine-element denylist; with at least one rejection
the AdditionalAuthorizeParametersValid condition is Status=False with
Reason=DisallowedParameterName and a message listing all rejected names
joined by commas; with none it is Status=True; and no denylisted name is
ever a key of the resulting additional-parameter map. -/
theorem oidc_disallowed_params_spec (params : List (String × String)) :
    (oidcupstreamwatcher.disallowedAdditionalAuthorizeParameters =
      ["response_type", "scope", "client_id", "state", "nonce",
       "code_challenge", "code_challenge_method", "redirect_uri", "hd"]) ∧
    (∀ n, n ∈ oidcupstreamwatcher.rejectedAuthcodeAuthorizeParameters params ↔
      (n ∈ oidcupstreamwatcher.disallowedAdditionalAuthorizeParameters ∧
        ∃ v, (n, v) ∈ params)) ∧
    (oidcupstreamwatcher.rejectedAuthcodeAuthorizeParameters params ≠ [] →
      oidcupstreamwatcher.additionalAuthorizeParametersValidCondition params =
        { type := oidcupstreamwatcher.typeAdditionalAuthorizeParametersValid,
          status := ConditionStatus.cfalse,
          reason := oidcupstreamwatcher.reasonDisallowedParameterName,
          message := "the following additionalAuthorizeParameters are not allowed: " ++
            String.intercalate "," (oidcupstreamwatcher.rejectedAuthcodeAuthorizeParameters params),
          observedGeneration := 0, lastTransitionTime := 0 }) ∧
    (oidcupstreamwatcher.rejectedAuthcodeAuthorizeParameters params = [] →
      oidcupstreamwatcher.additionalAuthorizeParametersValidCondition params =
        { type := oidcupstreamwatcher.typeAdditionalAuthorizeParametersValid,
          status := ConditionStatus.ctrue,
          reason := oidcupstreamwatcher.reasonSuccess,
          message := oidcupstreamwatcher.allParamNamesAllowedMsg,
          observedGeneration := 0, lastTransitionTime := 0 }) ∧
    (∀ n ∈ oidcupstreamwatcher.disallowedAdditionalAuthorizeParameters,
      oidcupstreamwatcher.mapGet
        (oidcupstreamwatcher.additionalAuthcodeAuthorizeParameters params) n = none) := by
  refine ⟨rfl, ?_, ?_, ?_, ?_⟩
  · intro n
    unfold oidcupstreamwatcher.rejectedAuthcodeAuthorizeParameters
    simp only [List.mem_map, List.mem_filter, decide_eq_true_eq]
    constructor
    · rintro ⟨⟨a, b⟩, ⟨hp, hd⟩, rfl⟩
      exact ⟨hd, b, hp⟩
    · rintro ⟨hd, v, hv⟩
      exact ⟨(n, v), ⟨hv, hd⟩, rfl⟩
  · intro h
    unfold oidcupstreamwatcher.additionalAuthorizeParametersValidCondition
    dsimp only
    rw [if_pos h]
  · intro h
    unfold oidcupstreamwatcher.additionalAuthorizeParametersValidCondition
    dsimp only
    rw [if_neg (by simp [h])]
  · intro n hn
    exact oidcupstreamwatcher.additionalParams_disallowed_get_none params n hn

/-- C8 witness: the theorem applied at a configuration holding one
denylisted parameter (redirect_uri) and one allowed one. -/
theorem oidc_disallowed_params_witness :
    oidcupstreamwatcher.additionalAuthorizeParametersValidCondition
        [("redirect_uri", "evil"), ("custom", "x")] =
      { type := oidcupstreamwatcher.typeAdditionalAuthorizeParametersValid,
        status := ConditionStatus.cfalse,
        reason := oidcupstreamwatcher.reasonDisallowedParameterName,
        message := "the following additionalAuthorizeParameters are not allowed: " ++
          String.intercalate ","
            (oidcupstreamwatcher.rejectedAuthcodeAuthorizeParameters
              [("redirect_uri", "evil"), ("custom", "x")]),
        observedGeneration := 0, lastTransitionTime := 0 } ∧
    oidcupstreamwatcher.mapGet
        (oidcupstreamwatcher.additionalAuthcodeAuthorizeParameters
          [("redirect_uri", "evil"), ("custom", "x")]) "redirect_uri" = none :=
  ⟨(oidc_disallowed_params_spec [("redirect_uri", "evil"), ("custom", "x")]).2.2.1 (by decide),
   (oidc_disallowed_params_spec [("redirect_uri", "evil"), ("custom", "x")]).2.2.2.2
     "redirect_uri" (by decide)⟩

/-- C9: with no additional scopes configured, `computeScopes` returns
exactly the fixed default scope set; with the single configured scope
"groups" it returns exactly [groups, openid]; and for any non-empty
configuration it returns the de-duplicated union of "openid" and the
configured scopes, sorted. -/
theorem computeScopes_spec :
    oidcupstreamwatcher.computeScopes [] = ["openid", "offline_access", "email", "profile"] ∧
    oidcupstreamwatcher.computeScopes ["groups"] = ["groups", "openid"] ∧
    ∀ l : List String, l ≠ [] →
      (oidcupstreamwatcher.computeScopes l).Pairwise strLE ∧
      (oidcupstreamwatcher.computeScopes l).Nodup ∧
      ∀ s, s ∈ oidcupstreamwatcher.computeScopes l ↔ (s = "openid" ∨ s ∈ l) := by
  refine ⟨by decide, by decide, ?_⟩
  intro l hl
  have hne : l.isEmpty = false := by
    cases l with
    | nil => exact absurd rfl hl
    | cons x rest => rfl
  unfold oidcupstreamwatcher.computeScopes
  simp only [hne, Bool.false_eq_true, if_false]
  refine ⟨?_, List.nodup_dedup _, ?_⟩
  · exact List.Pairwise.sublist (List.dedup_sublist _) (List.sorted_insertionSort strLE _)
  · intro s
    rw [List.mem_dedup, List.mem_insertionSort, List.mem_cons]

/-- C9 witness: the general part of the scope theorem applied at the
concrete configuration containing "groups". -/
theorem computeScopes_witness :
    "openid" ∈ oidcupstreamwatcher.computeScopes ["groups"] :=
  ((computeScopes_spec.2.2 ["groups"] (by decide)).2.2 "openid").mpr (Or.inl rfl)

/-- C7 (amended): `validateHTTPSURL` rejects every URL that parses (per the
`net/url.Parse` model) with a scheme other than "https", with a condition
whose message states the https requirement (shown on the concrete example
http://example.com as well); rejects every parsed https URL whose query
parses to at least one key/value pair or whose fragment is non-empty, with a
message saying it cannot contain a query or fragment component (shown on
https://example.com?x=1); accepts every parsed https URL with no surviving
query pair and an empty fragment, returning the parsed URL and no condition;
and accepts https://example.com concretely. -/
theorem validateHTTPSURL_spec (s endpointType reason : String) :
    (∀ u, oidcupstreamwatcher.goURLParse s = Except.ok u → u.scheme ≠ "https" →
      oidcupstreamwatcher.validateHTTPSURL s endpointType reason =
        (none, some { type := oidcupstreamwatcher.typeOIDCDiscoverySucceeded,
                      status := ConditionStatus.cfalse, reason := reason,
                      message := endpointType ++ " URL '" ++ s ++
                        "' must have \"https\" scheme, not \"" ++ u.scheme ++ "\"",
                      observedGeneration := 0, lastTransitionTime := 0 })) ∧
    (∀ u, oidcupstreamwatcher.goURLParse s = Except.ok u → u.scheme = "https" →
      (oidcupstreamwatcher.queryHasPairs u.rawQuery = true ∨ u.fragment ≠ "") →
      oidcupstreamwatcher.validateHTTPSURL s endpointType reason =
        (none, some { type := oidcupstreamwatcher.typeOIDCDiscoverySucceeded,
                      status := ConditionStatus.cfalse, reason := reason,
                      message := endpointType ++ " URL '" ++ s ++
                        "' cannot contain query or fragment component",
                      observedGeneration := 0, lastTransitionTime := 0 })) ∧
    (∀ u, oidcupstreamwatcher.goURLParse s = Except.ok u → u.scheme = "https" →
      oidcupstreamwatcher.queryHasPairs u.rawQuery = false → u.fragment = "" →
      oidcupstreamwatcher.validateHTTPSURL s endpointType reason = (some u, none)) ∧
    oidcupstreamwatcher.validateHTTPSURL "http://example.com" endpointType reason =
      (none, some { type := oidcupstreamwatcher.typeOIDCDiscoverySucceeded,
                    status := ConditionStatus.cfalse, reason := reason,
                    message := endpointType ++ " URL '" ++ "http://example.com" ++
                      "' must have \"https\" scheme, not \"" ++ "http" ++ "\"",
                    observedGeneration := 0, lastTransitionTime := 0 }) ∧
    oidcupstreamwatcher.validateHTTPSURL "https://example.com?x=1" endpointType reason =
      (none, some { type := oidcupstreamwatcher.typeOIDCDiscoverySucceeded,
                    status := ConditionStatus.cfalse, reason := reason,
                    message := endpointType ++ " URL '" ++ "https://example.com?x=1" ++
                      "' cannot contain query or fragment component",
                    observedGeneration := 0, lastTransitionTime := 0 }) ∧
    oidcupstreamwatcher.validateHTTPSURL "https://example.com" endpointType reason =
      (some { scheme := "https", opaqueRest := "//example.com", rawQuery := "",
              fragment := "" }, none) := by
  refine ⟨?_, ?_, ?_, ?_, ?_, ?_⟩
  · intro u hparse hscheme
    unfold oidcupstreamwatcher.validateHTTPSURL
    rw [hparse]
    dsimp only
    rw [if_pos hscheme]
  · intro u hparse hscheme hqf
    unfold oidcupstreamwatcher.validateHTTPSURL
    rw [hparse]
    dsimp only
    rw [if_neg (not_not_intro hscheme)]
    have hcond : (oidcupstreamwatcher.queryHasPairs u.rawQuery ||
        decide (u.fragment ≠ "")) = true := by
      rcases hqf with h | h
      · rw [h, Bool.true_or]
      · rw [decide_eq_true h, Bool.or_true]
    rw [if_pos (of_decide_eq_true (by rw [decide_eq_true hcond]))]
  · intro u hparse hscheme hq hfrag
    unfold oidcupstreamwatcher.validateHTTPSURL
    rw [hparse]
    dsimp only
    rw [if_neg (not_not_intro hscheme)]
    have hcond : (oidcupstreamwatcher.queryHasPairs u.rawQuery ||
        decide (u.fragment ≠ "")) = false := by
      rw [hq, decide_eq_false (not_not_intro hfrag), Bool.or_false]
    rw [if_neg (by rw [hcond]; exact Bool.false_ne_true)]
  · have hp : oidcupstreamwatcher.goURLParse "http://example.com" =
        Except.ok { scheme := "http", opaqueRest := "//example.com", rawQuery := "",
                    fragment := "" } := by decide
    unfold oidcupstreamwatcher.validateHTTPSURL
    rw [hp]
    dsimp only
    rw [if_pos (by decide)]
  · have hp : oidcupstreamwatcher.goURLParse "https://example.com?x=1" =
        Except.ok { scheme := "https", opaqueRest := "//example.com", rawQuery := "x=1",
                    fragment := "" } := by decide
    unfold oidcupstreamwatcher.validateHTTPSURL
    rw [hp]
    dsimp only
    rw [if_neg (by decide), if_pos (by decide)]
  · have hp : oidcupstreamwatcher.goURLParse "https://example.com" =
        Except.ok { scheme := "https", opaqueRest := "//example.com", rawQuery := "",
                    fragment := "" } := by decide
    unfold oidcupstreamwatcher.validateHTTPSURL
    rw [hp]
    dsimp only
    rw [if_neg (by decide), if_neg (by decide)]

/-- C7 counterexample: `https://example.com?%zz` carries a (non-empty) raw
query string, but its only segment fails percent-unescaping, so `ParseQuery`
skips it, `len(Query())` is 0, and the URL is ACCEPTED, contrary to the
claim that a URL carrying a query string is rejected.  (Each conjunct is
checked against a hand trace of the Go code: `url.Parse` leaves RawQuery
unvalidated, and `Query()` discards the `QueryUnescape` error.) -/
theorem validateHTTPSURL_query_escape_counterexample :
    oidcupstreamwatcher.goURLParse "https://example.com?%zz" =
      Except.ok { scheme := "https", opaqueRest := "//example.com", rawQuery := "%zz",
                  fragment := "" } ∧
    oidcupstreamwatcher.queryHasPairs "%zz" = false ∧
    oidcupstreamwatcher.validateHTTPSURL "https://example.com?%zz" "issuer" "Unreachable" =
      (some { scheme := "https", opaqueRest := "//example.com", rawQuery := "%zz",
              fragment := "" }, none) := by decide

/-- C7 witness: the scheme conjunct applied at the concrete URL
http://localhost, showing that even localhost URLs are rejected when not
https. -/
theorem validateHTTPSURL_spec_witness :
    oidcupstreamwatcher.validateHTTPSURL "http://localhost" "token endpoint" "InvalidResponse" =
      (none, some { type := oidcupstreamwatcher.typeOIDCDiscoverySucceeded,
                    status := ConditionStatus.cfalse, reason := "InvalidResponse",
                    message := "token endpoint" ++ " URL '" ++ "http://localhost" ++
                      "' must have \"https\" scheme, not \"" ++ "http" ++ "\"",
                    observedGeneration := 0, lastTransitionTime := 0 }) :=
  (validateHTTPSURL_spec "http://localhost" "token endpoint" "InvalidResponse").1
    { scheme := "http", opaqueRest := "//localhost", rawQuery := "", fragment := "" }
    (by decide) (by decide)
